import Mathlib

/-!
# pRouter: shallow embedding and verification of spec claims

This file embeds the parts of the pRouter code base (datadvance/pRouter)
that the frozen claims C1..C10 talk about, and settles each claim:

* `src/prouter/connection_manager.py` — the connection registry
  (`ConnectionManager.register` / `ConnectionManager._unregister`);
* `src/prouter/api/jobenv.py` — host/runtime selection (`select`,
  `_runtime_match`, `_jobenv_match`);
* `src/prouter/identity.py` — handshake validation
  (`Identity.validate_incoming_handshake`, `Identity._check_token`);
* `src/prouter/handlers/files.py` — upload acceptance (`_accept_file`);
* `src/prouter/handlers/middleware.py` — `error_middleware`;
* `src/prouter/handlers/proxy.py` — the HTTP proxy response pump
  (`_proxy_http_forward_response`, `_proxy_http_setup_encoding`);
* `src/prouter/handlers/jobs.py` — `SCHEMA_JOB_START` validation under
  the semantics of the Python `jsonschema` library, and `job_start`
  argument extraction.

Python dicts are embedded as association lists with dict-assignment
semantics, exceptions as `Except`, and the `randint` calls in `select`
as an explicit choice parameter.
-/

namespace PRouter

/-! ## Python dict primitives

Association lists with Python dict semantics: `dget` is `d.get(k)`,
`dset` is `d[k] = v` (replace the first entry in place, else append,
which is exactly insertion-ordered dict assignment when keys are
unique), `ddel` is `del d[k]`. -/

def dget {V : Type} (d : List (String × V)) (k : String) : Option V :=
  (d.find? (fun p => p.1 = k)).map (·.2)

def dset {V : Type} (d : List (String × V)) (k : String) (v : V) :
    List (String × V) :=
  match d with
  | [] => [(k, v)]
  | p :: rest => if p.1 = k then (k, v) :: rest else p :: dset rest k v

def ddel {V : Type} (d : List (String × V)) (k : String) :
    List (String × V) :=
  d.filter (fun p => p.1 ≠ k)

theorem dget_nil {V : Type} (k : String) : dget ([] : List (String × V)) k = none := rfl

theorem dget_cons {V : Type} (p : String × V) (d : List (String × V)) (k : String) :
    dget (p :: d) k = if p.1 = k then some p.2 else dget d k := by
  by_cases h : p.1 = k <;> simp [dget, List.find?, h]

theorem dset_of_dget_none {V : Type} {d : List (String × V)} {k : String} (v : V)
    (h : dget d k = none) : dset d k v = d ++ [(k, v)] := by
  induction d with
  | nil => rfl
  | cons p rest ih =>
    rw [dget_cons] at h
    by_cases hk : p.1 = k
    · simp [hk] at h
    · simp only [hk, if_false] at h
      simp [dset, hk, ih h]

theorem dget_append {V : Type} (d₁ d₂ : List (String × V)) (k : String) :
    dget (d₁ ++ d₂) k = ((dget d₁ k).rec (dget d₂ k) fun v => some v) := by
  induction d₁ with
  | nil => simp [dget]
  | cons p rest ih =>
    rw [List.cons_append, dget_cons, dget_cons]
    by_cases h : p.1 = k <;> simp [h, ih]

theorem dget_ddel_self {V : Type} (d : List (String × V)) (k : String) :
    dget (ddel d k) k = none := by
  induction d with
  | nil => rfl
  | cons p rest ih =>
    by_cases h : p.1 = k
    · simpa [ddel, h] using ih
    · simpa [ddel, h, dget_cons] using ih

theorem ddel_cons_eq {V : Type} {p : String × V} {d : List (String × V)} {k : String}
    (h : p.1 = k) : ddel (p :: d) k = ddel d k := by
  simp [ddel, h]

theorem ddel_cons_ne {V : Type} {p : String × V} {d : List (String × V)} {k : String}
    (h : ¬ p.1 = k) : ddel (p :: d) k = p :: ddel d k := by
  simp [ddel, h]

theorem dget_ddel_ne {V : Type} (d : List (String × V)) {k k' : String}
    (h : k' ≠ k) : dget (ddel d k) k' = dget d k' := by
  induction d with
  | nil => rfl
  | cons p rest ih =>
    by_cases hp : p.1 = k
    · have hne : p.1 ≠ k' := by rw [hp]; exact fun he => h he.symm
      rw [ddel_cons_eq hp, ih, dget_cons, if_neg hne]
    · rw [ddel_cons_ne hp, dget_cons, dget_cons, ih]

theorem mem_ddel {V : Type} {p : String × V} {d : List (String × V)} {k : String} :
    p ∈ ddel d k ↔ p ∈ d ∧ p.1 ≠ k := by
  simp [ddel, List.mem_filter]

theorem dget_eq_some_mem {V : Type} {d : List (String × V)} {k : String} {v : V}
    (h : dget d k = some v) : (k, v) ∈ d := by
  induction d with
  | nil => simp [dget] at h
  | cons p rest ih =>
    rw [dget_cons] at h
    by_cases hp : p.1 = k
    · rw [if_pos hp] at h
      have hv : p.2 = v := by injection h
      subst hp
      subst hv
      exact List.mem_cons.mpr (Or.inl Prod.mk.eta)
    · rw [if_neg hp] at h
      exact List.mem_cons_of_mem _ (ih h)

/-! ## Connection registry (`src/prouter/connection_manager.py`)

`ConnectionManager` keeps two indices: `_connections` (by connection id)
and `_incoming_by_uid` (peer uid → connection, SERVER connections only).
A connection carries its id, its prpc mode (the `NEW` mode is excluded by
the asserts at the top of `register`) and the peer uid extracted from its
handshake (`Identity.get_uid`). -/

inductive ConnMode where
  | server
  | client
deriving DecidableEq, Repr

structure Conn where
  id : String
  mode : ConnMode
  peerUid : String
deriving DecidableEq, Repr

structure RegistryState where
  connections : List (String × Conn)
  incoming_by_uid : List (String × Conn)
deriving DecidableEq, Repr

def RegistryState.initial : RegistryState := ⟨[], []⟩

/-- `ConnectionManager.register`: raise if the connection id is already
registered; for SERVER connections raise if the peer uid is already in
`_incoming_by_uid`, else index the connection by peer uid; finally index
it by connection id.  Both index writes happen after both checks. -/
def register (st : RegistryState) (c : Conn) : Except String RegistryState :=
  if (dget st.connections c.id).isSome then
    .error "connection is already registered"
  else if c.mode = .server ∧ (dget st.incoming_by_uid c.peerUid).isSome then
    .error "incoming connection from peer is already registered"
  else
    .ok { connections := dset st.connections c.id c,
          incoming_by_uid :=
            if c.mode = .server then dset st.incoming_by_uid c.peerUid c
            else st.incoming_by_uid }

/-- `ConnectionManager._unregister`: delete the connection from
`_connections` and, for SERVER connections, from `_incoming_by_uid`. -/
def unregister (st : RegistryState) (c : Conn) : RegistryState :=
  { connections := ddel st.connections c.id,
    incoming_by_uid :=
      if c.mode = .server then ddel st.incoming_by_uid c.peerUid
      else st.incoming_by_uid }

/-- An operation on the registry: a `register` call, or a connection
closing (which fires the `_unregister` close callback exactly when the
connection is currently registered, since `register` appends the
callback and `_unregister` removes it). -/
inductive RegOp where
  | reg (c : Conn)
  | close (c : Conn)

def regStep (st : RegistryState) (op : RegOp) : RegistryState :=
  match op with
  | .reg c =>
    match register st c with
    | .ok st' => st'
    | .error _ => st
  | .close c =>
    if dget st.connections c.id = some c then unregister st c else st

def runRegistry (ops : List RegOp) : RegistryState :=
  ops.foldl regStep RegistryState.initial

/-- The registry bijection invariant: keys agree with the stored
connection's id / peer uid, every `_incoming_by_uid` entry is a SERVER
connection present in `_connections`, and every SERVER connection in
`_connections` is pointed to by `_incoming_by_uid` at its peer uid. -/
def RegistryInv (st : RegistryState) : Prop :=
  (∀ p ∈ st.connections, p.1 = p.2.id) ∧
  (∀ p ∈ st.incoming_by_uid,
      p.1 = p.2.peerUid ∧ p.2.mode = .server ∧
      dget st.connections p.2.id = some p.2) ∧
  (∀ p ∈ st.connections, p.2.mode = .server →
      dget st.incoming_by_uid p.2.peerUid = some p.2)

theorem registryInv_initial : RegistryInv RegistryState.initial := by
  refine ⟨?_, ?_, ?_⟩ <;> intro p hp <;> simp [RegistryState.initial] at hp

theorem registryInv_register {st : RegistryState} {c : Conn} {st' : RegistryState}
    (hinv : RegistryInv st) (h : register st c = .ok st') : RegistryInv st' := by
  obtain ⟨h1, h2, h3⟩ := hinv
  unfold register at h
  cases hnone : dget st.connections c.id with
  | some v => rw [hnone] at h; simp at h
  | none =>
    rw [hnone] at h
    simp only [Option.isSome_none, Bool.false_eq_true, if_false] at h
    by_cases hs : c.mode = .server ∧ (dget st.incoming_by_uid c.peerUid).isSome
    · rw [if_pos hs] at h; cases h
    · rw [if_neg hs] at h
      injection h with h'
      subst h'
      have hconns : dset st.connections c.id c = st.connections ++ [(c.id, c)] :=
        dset_of_dget_none c hnone
      refine ⟨?_, ?_, ?_⟩
      · intro p hp
        simp only [hconns, List.mem_append, List.mem_singleton] at hp
        rcases hp with hp | hp
        · exact h1 p hp
        · subst hp; rfl
      · intro p hp
        simp only at hp
        by_cases hm : c.mode = .server
        · have hinone : dget st.incoming_by_uid c.peerUid = none := by
            cases hh : dget st.incoming_by_uid c.peerUid with
            | none => rfl
            | some v => exact absurd ⟨hm, by rw [hh]; simp⟩ hs
          rw [if_pos hm, dset_of_dget_none c hinone] at hp
          simp only [List.mem_append, List.mem_singleton] at hp
          rcases hp with hp | hp
          · obtain ⟨ha, hb, hc'⟩ := h2 p hp
            refine ⟨ha, hb, ?_⟩
            simp only [hconns, dget_append, hc']
          · subst hp
            refine ⟨rfl, hm, ?_⟩
            simp only [hconns, dget_append, hnone]
            simp [dget_cons]
        · rw [if_neg hm] at hp
          obtain ⟨ha, hb, hc'⟩ := h2 p hp
          refine ⟨ha, hb, ?_⟩
          simp only [hconns, dget_append, hc']
      · intro p hp hpm
        simp only [hconns, List.mem_append, List.mem_singleton] at hp
        rcases hp with hp | hp
        · have hold := h3 p hp hpm
          by_cases hm : c.mode = .server
          · rw [if_pos hm]
            have hinone : dget st.incoming_by_uid c.peerUid = none := by
              cases hh : dget st.incoming_by_uid c.peerUid with
              | none => rfl
              | some v => exact absurd ⟨hm, by rw [hh]; simp⟩ hs
            rw [dset_of_dget_none c hinone, dget_append, hold]
          · rw [if_neg hm]; exact hold
        · subst hp
          simp only at hpm
          rw [if_pos hpm]
          have hinone : dget st.incoming_by_uid c.peerUid = none := by
            cases hh : dget st.incoming_by_uid c.peerUid with
            | none => rfl
            | some v => exact absurd ⟨hpm, by rw [hh]; simp⟩ hs
          rw [dset_of_dget_none c hinone, dget_append, hinone]
          simp [dget_cons]

theorem registryInv_close {st : RegistryState} {c : Conn}
    (hinv : RegistryInv st) (hreg : dget st.connections c.id = some c) :
    RegistryInv (unregister st c) := by
  obtain ⟨h1, h2, h3⟩ := hinv
  refine ⟨?_, ?_, ?_⟩
  · intro p hp
    exact h1 p (mem_ddel.mp hp).1
  · intro p hp
    simp only [unregister] at hp
    by_cases hm : c.mode = .server
    · rw [if_pos hm] at hp
      obtain ⟨hpmem, hpne⟩ := mem_ddel.mp hp
      obtain ⟨ha, hb, hc'⟩ := h2 p hpmem
      refine ⟨ha, hb, ?_⟩
      by_cases hid : p.2.id = c.id
      · exfalso
        rw [hid] at hc'
        rw [hreg] at hc'
        have hpc : c = p.2 := by injection hc'
        exact hpne (by rw [ha, ← hpc])
      · simp only [unregister]
        rw [dget_ddel_ne _ hid]
        exact hc'
    · rw [if_neg hm] at hp
      obtain ⟨ha, hb, hc'⟩ := h2 p hp
      refine ⟨ha, hb, ?_⟩
      by_cases hid : p.2.id = c.id
      · exfalso
        rw [hid, hreg] at hc'
        have hpc : c = p.2 := by injection hc'
        rw [← hpc] at hb
        exact hm hb
      · simp only [unregister]
        rw [dget_ddel_ne _ hid]
        exact hc'
  · intro p hp hpm
    simp only [unregister] at hp ⊢
    obtain ⟨hpmem, hpne⟩ := mem_ddel.mp hp
    have hold := h3 p hpmem hpm
    by_cases hm : c.mode = .server
    · rw [if_pos hm]
      by_cases huid : p.2.peerUid = c.peerUid
      · exfalso
        have hcinc := h3 (c.id, c) (dget_eq_some_mem hreg) hm
        rw [huid] at hold
        rw [hold] at hcinc
        have hpc : p.2 = c := by injection hcinc
        exact hpne (by rw [h1 p hpmem, hpc])
      · rw [dget_ddel_ne _ huid]
        exact hold
    · rw [if_neg hm]
      exact hold

theorem registryInv_step {st : RegistryState} (op : RegOp)
    (hinv : RegistryInv st) : RegistryInv (regStep st op) := by
  cases op with
  | reg c =>
    simp only [regStep]
    cases h : register st c with
    | ok st' => exact registryInv_register hinv h
    | error e => exact hinv
  | close c =>
    simp only [regStep]
    by_cases h : dget st.connections c.id = some c
    · rw [if_pos h]; exact registryInv_close hinv h
    · rw [if_neg h]; exact hinv

theorem registryInv_runAux (ops : List RegOp) (st : RegistryState)
    (hinv : RegistryInv st) : RegistryInv (ops.foldl regStep st) := by
  induction ops generalizing st with
  | nil => exact hinv
  | cons op rest ih => exact ih _ (registryInv_step op hinv)

/-- C1: Registry bijection invariant.  For every sequence of
`register`/close operations starting from the empty registry, every
SERVER-mode connection in `_connections` has an `_incoming_by_uid`
entry at its peer uid pointing to it, every `_incoming_by_uid` entry is
a SERVER-mode entry present in `_connections`, and the `_unregister`
close callback (installed by `register`, applied by `regStep .close`)
removes both entries, so no sequence of operations leaves a dangling
entry in either index. -/
theorem registry_bijection_invariant (ops : List RegOp) :
    RegistryInv (runRegistry ops) :=
  registryInv_runAux ops RegistryState.initial registryInv_initial

/-- C2: Registration conflict atomicity.  Registering a connection whose
id is already registered, or a SERVER-mode connection whose peer uid is
already in `_incoming_by_uid`, raises `ValueError` and leaves both
registry indices exactly as they were. -/
theorem register_conflict_atomic (st : RegistryState) (c : Conn)
    (h : (dget st.connections c.id).isSome = true ∨
         (c.mode = .server ∧ (dget st.incoming_by_uid c.peerUid).isSome = true)) :
    (∃ e, register st c = .error e) ∧ regStep st (.reg c) = st := by
  have herr : ∃ e, register st c = Except.error e := by
    unfold register
    rcases h with h | h
    · exact ⟨_, by rw [if_pos h]⟩
    · by_cases hc : (dget st.connections c.id).isSome
      · exact ⟨_, by rw [if_pos hc]⟩
      · exact ⟨_, by rw [if_neg hc, if_pos h]⟩
  refine ⟨herr, ?_⟩
  obtain ⟨e, he⟩ := herr
  simp [regStep, he]

theorem register_conflict_atomic_witness :
    (∃ e, register ⟨[("a", ⟨"a", .client, "u"⟩)], []⟩ ⟨"a", .server, "v"⟩
            = .error e) ∧
    regStep ⟨[("a", ⟨"a", .client, "u"⟩)], []⟩ (.reg ⟨"a", .server, "v"⟩)
      = ⟨[("a", ⟨"a", .client, "u"⟩)], []⟩ :=
  register_conflict_atomic _ _ (Or.inl rfl)

/-! ## Jobenv selection (`src/prouter/api/jobenv.py`)

`JobEnv`, `Host` and `Runtime` are the namedtuples of the source.
Versions are tuples of ints (`_version`), compared with Python tuple
comparison (`verLE`).  `version[0]` is modelled by `List.head?`; the
versions produced by `_version` are non-empty.  The `randint` calls in
`select` are modelled by an explicit `pick` parameter reduced modulo
the number of candidates. -/

structure JobEnv where
  guid : String
  version : List Int
  activate : String
deriving DecidableEq, Repr

structure Host where
  uid : String
  platform : List (String × String)
  jobenvs : List JobEnv
deriving DecidableEq, Repr

structure Runtime where
  uid : String
  platforms : List (List (String × String))
  jobenvs : List JobEnv
deriving DecidableEq, Repr

/-- Python tuple `≤` on versions: lexicographic, a strict prefix is
smaller. -/
def verLE : List Int → List Int → Bool
  | [], _ => true
  | _ :: _, [] => false
  | a :: as, b :: bs =>
    if a < b then true else if b < a then false else verLE as bs

/-- `_jobenv_match(host, required)`. -/
def jobenv_match (host required : JobEnv) : Bool :=
  host.guid == required.guid &&
  host.version.head? == required.version.head? &&
  verLE required.version host.version

/-- One platform requirement dict against the host: every listed key
must equal the host's `platform.get(param, None)` value. -/
def platform_match_one (host : Host) (platform : List (String × String)) : Bool :=
  platform.all (fun pv => dget host.platform pv.1 == some pv.2)

/-- The platform part of `_runtime_match`: an empty `runtime.platforms`
matches any host, otherwise some platform dict must match. -/
def platform_match (host : Host) (platforms : List (List (String × String))) : Bool :=
  platforms.isEmpty || platforms.any (platform_match_one host)

/-- Inner loop of `_runtime_match`: first host env matching `required`. -/
def find_host_env (required : JobEnv) (hostEnvs : List JobEnv) : Option JobEnv :=
  hostEnvs.find? (fun he => jobenv_match he required)

/-- Outer loop of `_runtime_match`: iterate required envs in order and
return the first hit of the inner loop. -/
def find_runtime_env (requiredEnvs hostEnvs : List JobEnv) : Option JobEnv :=
  match requiredEnvs with
  | [] => none
  | r :: rest =>
    match find_host_env r hostEnvs with
    | some he => some he
    | none => find_runtime_env rest hostEnvs

/-- `_runtime_match(runtime, host)`. -/
def runtime_match (rt : Runtime) (host : Host) : Bool × Option JobEnv :=
  if !platform_match host rt.platforms then (false, none)
  else if rt.jobenvs.isEmpty then (true, none)
  else
    match find_runtime_env rt.jobenvs host.jobenvs with
    | some he => (true, some he)
    | none => (false, none)

/-- Inner loop of `select` over `runtimes`: first matching runtime for
the host produces the `selected` entry. -/
def select_first_runtime (host : Host) :
    List Runtime → Option (Host × Option JobEnv × String)
  | [] => none
  | rt :: rest =>
    match runtime_match rt host with
    | (true, jobenv) => some (host, jobenv, rt.uid)
    | (false, _) => select_first_runtime host rest

/-- The `selected` dict built by `select`. -/
def select_build (hosts : List Host) (runtimes : List Runtime) :
    List (String × (Host × Option JobEnv × String)) :=
  hosts.foldl
    (fun sel host =>
      match select_first_runtime host runtimes with
      | some entry => dset sel host.uid entry
      | none => sel)
    []

/-- `select(hosts, runtimes)` with the two `randint` draws replaced by
the `pick` parameter (reduced modulo the candidate count). -/
def select (pick : Nat) (hosts : List Host) (runtimes : List Runtime) :
    Except String (Host × Option JobEnv × Option String) :=
  if runtimes.isEmpty then
    match hosts.get? (pick % hosts.length) with
    | some h => .ok (h, none, none)
    | none => .error "empty host list"
  else if (select_build hosts runtimes).isEmpty then
    .error "failed to select host for required runtimes"
  else
    match ((select_build hosts runtimes).map (·.1)).get?
        (pick % ((select_build hosts runtimes).map (·.1)).length) with
    | none => .error "empty selection"
    | some chosen =>
      match dget (select_build hosts runtimes) chosen with
      | some (h, je, ru) => .ok (h, je, some ru)
      | none => .error "missing selection key"

theorem mem_dset {V : Type} {p : String × V} {d : List (String × V)} {k : String}
    {v : V} (h : p ∈ dset d k v) : p = (k, v) ∨ p ∈ d := by
  induction d with
  | nil => simpa [dset] using h
  | cons q rest ih =>
    simp only [dset] at h
    by_cases hq : q.1 = k
    · rw [if_pos hq] at h
      rcases List.mem_cons.mp h with h | h
      · exact Or.inl h
      · exact Or.inr (List.mem_cons_of_mem _ h)
    · rw [if_neg hq] at h
      rcases List.mem_cons.mp h with h | h
      · exact Or.inr (h ▸ List.mem_cons_self q rest)
      · rcases ih h with h | h
        · exact Or.inl h
        · exact Or.inr (List.mem_cons_of_mem _ h)

theorem find?_eq_some_split {α : Type} (p : α → Bool) (l : List α) (a : α)
    (h : l.find? p = some a) :
    ∃ l₁ l₂, l = l₁ ++ a :: l₂ ∧ p a = true ∧ ∀ x ∈ l₁, p x = false := by
  induction l with
  | nil => simp at h
  | cons x xs ih =>
    by_cases hx : p x
    · rw [List.find?_cons_of_pos _ hx] at h
      injection h with h
      subst h
      exact ⟨[], xs, rfl, hx, by simp⟩
    · rw [List.find?_cons_of_neg _ hx] at h
      obtain ⟨l₁, l₂, heq, hpa, hall⟩ := ih h
      refine ⟨x :: l₁, l₂, by rw [heq, List.cons_append], hpa, ?_⟩
      intro y hy
      rcases List.mem_cons.mp hy with hy | hy
      · subst hy; simpa using hx
      · exact hall y hy

theorem find_runtime_env_eq_some {reqs hostEnvs : List JobEnv} {he : JobEnv}
    (h : find_runtime_env reqs hostEnvs = some he) :
    ∃ pre req post, reqs = pre ++ req :: post ∧
      (∀ r ∈ pre, find_host_env r hostEnvs = none) ∧
      find_host_env req hostEnvs = some he := by
  induction reqs with
  | nil => simp [find_runtime_env] at h
  | cons r rest ih =>
    cases hr : find_host_env r hostEnvs with
    | some x =>
      have hx : find_runtime_env (r :: rest) hostEnvs = some x := by
        simp [find_runtime_env, hr]
      rw [hx] at h
      injection h with h
      subst h
      exact ⟨[], r, rest, rfl, by simp, hr⟩
    | none =>
      have hx : find_runtime_env (r :: rest) hostEnvs =
          find_runtime_env rest hostEnvs := by
        simp [find_runtime_env, hr]
      rw [hx] at h
      obtain ⟨pre, req, post, heq, hpre, hreq⟩ := ih h
      refine ⟨r :: pre, req, post, by rw [heq, List.cons_append], ?_, hreq⟩
      intro y hy
      rcases List.mem_cons.mp hy with hy | hy
      · subst hy; exact hr
      · exact hpre y hy

theorem find_runtime_env_eq_none {reqs hostEnvs : List JobEnv}
    (h : find_runtime_env reqs hostEnvs = none) :
    ∀ r ∈ reqs, ∀ x ∈ hostEnvs, jobenv_match x r = false := by
  induction reqs with
  | nil => simp
  | cons r rest ih =>
    cases hr : find_host_env r hostEnvs with
    | some x => simp [find_runtime_env, hr] at h
    | none =>
      have hx : find_runtime_env (r :: rest) hostEnvs =
          find_runtime_env rest hostEnvs := by
        simp [find_runtime_env, hr]
      rw [hx] at h
      intro r' hr' x hx'
      rcases List.mem_cons.mp hr' with hr' | hr'
      · subst hr'
        have := List.find?_eq_none.mp hr x hx'
        simpa using this
      · exact ih h r' hr' x hx'

theorem select_first_runtime_eq_some {host : Host} {runtimes : List Runtime}
    {h : Host} {je : Option JobEnv} {ru : String}
    (hs : select_first_runtime host runtimes = some (h, je, ru)) :
    h = host ∧ ∃ rt ∈ runtimes, ru = rt.uid ∧ runtime_match rt host = (true, je) := by
  induction runtimes with
  | nil => simp [select_first_runtime] at hs
  | cons rt rest ih =>
    cases hm : runtime_match rt host with
    | mk matched jobenv =>
      cases matched
      · have hx : select_first_runtime host (rt :: rest) =
            select_first_runtime host rest := by
          simp [select_first_runtime, hm]
        rw [hx] at hs
        obtain ⟨hh, rt', hmem, hru, hrm⟩ := ih hs
        exact ⟨hh, rt', List.mem_cons_of_mem _ hmem, hru, hrm⟩
      · have hx : select_first_runtime host (rt :: rest) =
            some (host, jobenv, rt.uid) := by
          simp [select_first_runtime, hm]
        rw [hx] at hs
        injection hs with hs
        have h1 : host = h := congrArg Prod.fst hs
        have h2 : jobenv = je := congrArg (fun q => q.2.1) hs
        have h3 : rt.uid = ru := congrArg (fun q => q.2.2) hs
        exact ⟨h1.symm, rt, List.mem_cons_self rt rest, h3.symm, by rw [hm, h2]⟩

theorem select_build_aux (runtimes : List Runtime) (hosts : List Host)
    (acc : List (String × (Host × Option JobEnv × String)))
    (p : String × (Host × Option JobEnv × String))
    (hp : p ∈ hosts.foldl
        (fun sel host =>
          match select_first_runtime host runtimes with
          | some entry => dset sel host.uid entry
          | none => sel)
        acc) :
    p ∈ acc ∨ ∃ host ∈ hosts, select_first_runtime host runtimes = some p.2 := by
  induction hosts generalizing acc with
  | nil => exact Or.inl hp
  | cons host rest ih =>
    rw [List.foldl_cons] at hp
    cases hfr : select_first_runtime host runtimes with
    | none =>
      rw [hfr] at hp
      rcases ih _ hp with h | ⟨h', hmem, hsel⟩
      · exact Or.inl h
      · exact Or.inr ⟨h', List.mem_cons_of_mem _ hmem, hsel⟩
    | some entry =>
      rw [hfr] at hp
      rcases ih _ hp with h | ⟨h', hmem, hsel⟩
      · rcases mem_dset h with h | h
        · refine Or.inr ⟨host, List.mem_cons_self host rest, ?_⟩
          rw [hfr, h]
        · exact Or.inl h
      · exact Or.inr ⟨h', List.mem_cons_of_mem _ hmem, hsel⟩

theorem select_build_mem {hosts : List Host} {runtimes : List Runtime}
    {p : String × (Host × Option JobEnv × String)}
    (hp : p ∈ select_build hosts runtimes) :
    ∃ host ∈ hosts, select_first_runtime host runtimes = some p.2 := by
  rcases select_build_aux runtimes hosts [] p hp with h | h
  · simp at h
  · exact h

theorem jobenv_match_iff {he req : JobEnv} :
    jobenv_match he req = true ↔
    he.guid = req.guid ∧ he.version.head? = req.version.head? ∧
      verLE req.version he.version = true := by
  simp [jobenv_match, Bool.and_eq_true, and_assoc, beq_iff_eq]

theorem platform_match_iff {host : Host}
    {platforms : List (List (String × String))} :
    platform_match host platforms = true ↔
    platforms = [] ∨
      ∃ p ∈ platforms, ∀ kv ∈ p, dget host.platform kv.1 = some kv.2 := by
  simp [platform_match, platform_match_one, List.isEmpty_iff,
    List.any_eq_true, List.all_eq_true, beq_iff_eq]

theorem runtime_match_true {rt : Runtime} {host : Host} {je : Option JobEnv}
    (h : runtime_match rt host = (true, je)) :
    platform_match host rt.platforms = true ∧
    (rt.jobenvs ≠ [] → ∃ he, je = some he ∧ he ∈ host.jobenvs ∧
        ∃ req ∈ rt.jobenvs, jobenv_match he req = true) := by
  unfold runtime_match at h
  by_cases hp : platform_match host rt.platforms
  · refine ⟨hp, ?_⟩
    intro hne
    have hie : rt.jobenvs.isEmpty = false := by
      simpa [List.isEmpty_iff] using hne
    rw [hp] at h
    simp only [Bool.not_true, Bool.false_eq_true, if_false, hie] at h
    cases hfre : find_runtime_env rt.jobenvs host.jobenvs with
    | none => rw [hfre] at h; cases h
    | some he =>
      rw [hfre] at h
      have hje : je = some he := (congrArg (fun q => q.2) h).symm
      obtain ⟨pre, req, post, heq, _, hfind⟩ := find_runtime_env_eq_some hfre
      have hfind' : host.jobenvs.find? (fun x => jobenv_match x req) = some he := hfind
      refine ⟨he, hje, List.mem_of_find?_eq_some hfind', req, ?_,
        by simpa using List.find?_some hfind'⟩
      rw [heq]
      exact List.mem_append_right _ (List.mem_cons_self _ _)
  · exfalso
    have hp' : platform_match host rt.platforms = false := by
      simpa using hp
    rw [hp'] at h
    simp at h

/-- C3: Selector soundness.  For a non-empty runtime list, whenever
`select` returns `(host, host_env, runtime_uid)`, the host is one of
the input hosts and some input runtime matches: its uid is the returned
runtime uid, its platform check holds for the host (an empty platform
list matches any host; a single platform constraint requires every
listed key to equal the host's value), and if its jobenv list is
non-empty the returned host env comes from the host and satisfies
`guid` equality, major-version equality, and version `≥` against some
required env of that runtime. -/
theorem select_soundness (pick : Nat) (hosts : List Host)
    (runtimes : List Runtime) (host : Host) (env : Option JobEnv)
    (ruid : Option String) (hne : runtimes ≠ [])
    (hsel : select pick hosts runtimes = .ok (host, env, ruid)) :
    host ∈ hosts ∧
    ∃ rt ∈ runtimes, ruid = some rt.uid ∧
      (rt.platforms = [] ∨
        ∃ p ∈ rt.platforms, ∀ kv ∈ p, dget host.platform kv.1 = some kv.2) ∧
      (rt.jobenvs ≠ [] → ∃ he, env = some he ∧ he ∈ host.jobenvs ∧
          ∃ req ∈ rt.jobenvs,
            he.guid = req.guid ∧ he.version.head? = req.version.head? ∧
            verLE req.version he.version = true) := by
  have hie : runtimes.isEmpty = false := by simpa [List.isEmpty_iff] using hne
  unfold select at hsel
  rw [hie] at hsel
  simp only [Bool.false_eq_true, if_false] at hsel
  by_cases hbe : (select_build hosts runtimes).isEmpty
  · rw [if_pos hbe] at hsel; cases hsel
  · rw [if_neg hbe] at hsel
    cases hch : ((select_build hosts runtimes).map (·.1)).get?
        (pick % ((select_build hosts runtimes).map (·.1)).length) with
    | none => rw [hch] at hsel; cases hsel
    | some chosen =>
      rw [hch] at hsel
      have hsel2 : (match dget (select_build hosts runtimes) chosen with
          | some (h, je, ru) => Except.ok (h, je, some ru)
          | none => Except.error "missing selection key")
          = Except.ok (host, env, ruid) := hsel
      cases hdg : dget (select_build hosts runtimes) chosen with
      | none => rw [hdg] at hsel2; cases hsel2
      | some entry =>
        rw [hdg] at hsel2
        obtain ⟨h0, je0, ru0⟩ := entry
        have hsel' : Except.ok (ε := String) (h0, je0, some ru0)
            = Except.ok (host, env, ruid) := hsel2
        injection hsel' with heq
        have e1 : h0 = host := congrArg (fun q => q.1) heq
        have e2 : je0 = env := congrArg (fun q => q.2.1) heq
        have e3 : (some ru0 : Option String) = ruid :=
          congrArg (fun q => q.2.2) heq
        obtain ⟨host0, hhost0, hselfr⟩ := select_build_mem (dget_eq_some_mem hdg)
        obtain ⟨hh, rt, hrt, hru, hrm⟩ := select_first_runtime_eq_some hselfr
        obtain ⟨hplat, hjep⟩ := runtime_match_true hrm
        subst e1
        subst e2
        subst e3
        refine ⟨?_, rt, hrt, ?_, ?_, ?_⟩
        · rw [hh]; exact hhost0
        · rw [hru]
        · rw [hh]
          exact platform_match_iff.mp hplat
        · intro hne2
          obtain ⟨he, hje, hmem2, req, hreq, hjm⟩ := hjep hne2
          rw [hh]
          exact ⟨he, hje, hmem2, req, hreq, jobenv_match_iff.mp hjm⟩

theorem select_soundness_witness :
    (⟨"h", [], []⟩ : Host) ∈ [(⟨"h", [], []⟩ : Host)] ∧
    ∃ rt ∈ [(⟨"rt", [], []⟩ : Runtime)],
      (some "rt" : Option String) = some rt.uid ∧
      (rt.platforms = [] ∨
        ∃ p ∈ rt.platforms, ∀ kv ∈ p,
          dget (⟨"h", [], []⟩ : Host).platform kv.1 = some kv.2) ∧
      (rt.jobenvs ≠ [] → ∃ he, (none : Option JobEnv) = some he ∧
          he ∈ (⟨"h", [], []⟩ : Host).jobenvs ∧
          ∃ req ∈ rt.jobenvs,
            he.guid = req.guid ∧ he.version.head? = req.version.head? ∧
            verLE req.version he.version = true) :=
  select_soundness 0 [⟨"h", [], []⟩] [⟨"rt", [], []⟩] ⟨"h", [], []⟩ none
    (some "rt") (by simp) rfl

/-- C4 counterexample: with required envs `x, y` (in that order) and a
single host env satisfying only `y`, `_runtime_match` succeeds and
records a host env that does not satisfy the first required env, so the
recorded jobenv is not "the first host env satisfying the first
required env of the runtime". -/
theorem runtime_match_first_required_cex :
    runtime_match ⟨"rt", [], [⟨"x", [1], "a1"⟩, ⟨"y", [1], "a2"⟩]⟩
        ⟨"h", [], [⟨"y", [1], "b"⟩]⟩
      = (true, some ⟨"y", [1], "b"⟩) ∧
    jobenv_match ⟨"y", [1], "b"⟩ ⟨"x", [1], "a1"⟩ = false :=
  ⟨rfl, rfl⟩

/-- C4 (amended): for a host passing the platform check and a runtime
with a non-empty jobenv list, the runtime matches the host iff some
required env is satisfied by some host env, and the recorded jobenv is
the first host env (in host env-list order) satisfying the first
required env (in runtime jobenv order) for which any host env
matches. -/
theorem runtime_match_jobenv_rule (rt : Runtime) (host : Host)
    (hne : rt.jobenvs ≠ [])
    (hplat : platform_match host rt.platforms = true) :
    ((runtime_match rt host).1 = true ↔
        ∃ req ∈ rt.jobenvs, ∃ he ∈ host.jobenvs, jobenv_match he req = true) ∧
    (∀ he, (runtime_match rt host).2 = some he →
      ∃ pre req post, rt.jobenvs = pre ++ req :: post ∧
        (∀ r ∈ pre, ∀ x ∈ host.jobenvs, jobenv_match x r = false) ∧
        ∃ hpre hpost, host.jobenvs = hpre ++ he :: hpost ∧
          jobenv_match he req = true ∧
          ∀ x ∈ hpre, jobenv_match x req = false) := by
  have hie : rt.jobenvs.isEmpty = false := by
    simpa [List.isEmpty_iff] using hne
  cases hfre : find_runtime_env rt.jobenvs host.jobenvs with
  | some he0 =>
    have hrmv : runtime_match rt host = (true, some he0) := by
      unfold runtime_match
      rw [hplat, hie]
      simp [hfre]
    obtain ⟨pre, req, post, heqs, hpre, hfind⟩ := find_runtime_env_eq_some hfre
    have hfind' : host.jobenvs.find? (fun x => jobenv_match x req) = some he0 :=
      hfind
    constructor
    · rw [hrmv]
      constructor
      · intro _
        exact ⟨req,
          by rw [heqs]; exact List.mem_append_right _ (List.mem_cons_self _ _),
          he0, List.mem_of_find?_eq_some hfind',
          by simpa using List.find?_some hfind'⟩
      · intro _
        rfl
    · intro he hhe
      rw [hrmv] at hhe
      have hee : some he0 = some he := hhe
      injection hee with hee
      subst hee
      refine ⟨pre, req, post, heqs, ?_, ?_⟩
      · intro r hr x hx
        simpa using List.find?_eq_none.mp (hpre r hr) x hx
      · obtain ⟨l₁, l₂, hsplit, hpa, hall⟩ := find?_eq_some_split _ _ _ hfind'
        exact ⟨l₁, l₂, hsplit, by simpa using hpa,
          fun x hx => by simpa using hall x hx⟩
  | none =>
    have hrmv : runtime_match rt host = (false, none) := by
      unfold runtime_match
      rw [hplat, hie]
      simp [hfre]
    constructor
    · rw [hrmv]
      constructor
      · intro h
        exact absurd h (by simp)
      · rintro ⟨req, hreq, he, hhe, hm⟩
        exact absurd hm (by simpa using find_runtime_env_eq_none hfre req hreq he hhe)
    · intro he hhe
      rw [hrmv] at hhe
      exact absurd hhe (by simp)

theorem runtime_match_jobenv_rule_witness :
    ((runtime_match ⟨"rt", [], [⟨"g", [1], "a"⟩]⟩ ⟨"h", [], [⟨"g", [1], "b"⟩]⟩).1
        = true ↔
      ∃ req ∈ [(⟨"g", [1], "a"⟩ : JobEnv)],
        ∃ he ∈ [(⟨"g", [1], "b"⟩ : JobEnv)], jobenv_match he req = true) ∧
    (∀ he,
      (runtime_match ⟨"rt", [], [⟨"g", [1], "a"⟩]⟩ ⟨"h", [], [⟨"g", [1], "b"⟩]⟩).2
          = some he →
      ∃ pre req post, [(⟨"g", [1], "a"⟩ : JobEnv)] = pre ++ req :: post ∧
        (∀ r ∈ pre, ∀ x ∈ [(⟨"g", [1], "b"⟩ : JobEnv)], jobenv_match x r = false) ∧
        ∃ hpre hpost, [(⟨"g", [1], "b"⟩ : JobEnv)] = hpre ++ he :: hpost ∧
          jobenv_match he req = true ∧
          ∀ x ∈ hpre, jobenv_match x req = false) :=
  runtime_match_jobenv_rule ⟨"rt", [], [⟨"g", [1], "a"⟩]⟩
    ⟨"h", [], [⟨"g", [1], "b"⟩]⟩ (by simp) rfl

/-! ## Handshake validation (`src/prouter/identity.py`)

Python values that can appear in a msgpack handshake are embedded as
`PyVal`; `pyTruthy` is Python truthiness.  Exceptions raised by
`Identity.validate_incoming_handshake` and `Identity._check_token` are
`AuthError`, `TypeError` and `ValueError`. -/

inductive PyVal where
  | none
  | bool (b : Bool)
  | int (n : Int)
  | str (s : String)
  | bytes (s : String)
  | dict (d : List (String × PyVal))
  | list (l : List PyVal)

mutual

/-- Python `==` on embedded values (structural equality). -/
def PyVal.beq : PyVal → PyVal → Bool
  | .none, .none => true
  | .bool a, .bool b => a == b
  | .int a, .int b => a == b
  | .str a, .str b => a == b
  | .bytes a, .bytes b => a == b
  | .dict a, .dict b => pyDictBeq a b
  | .list a, .list b => pyListBeq a b
  | _, _ => false

def pyDictBeq : List (String × PyVal) → List (String × PyVal) → Bool
  | [], [] => true
  | (k1, v1) :: r1, (k2, v2) :: r2 =>
    k1 == k2 && PyVal.beq v1 v2 && pyDictBeq r1 r2
  | _, _ => false

def pyListBeq : List PyVal → List PyVal → Bool
  | [], [] => true
  | v1 :: r1, v2 :: r2 => PyVal.beq v1 v2 && pyListBeq r1 r2
  | _, _ => false

end

/-- Python `x in s` over a collection of values. -/
def pyMem (v : PyVal) (l : List PyVal) : Bool :=
  l.any (PyVal.beq v)

def pyTruthy : PyVal → Bool
  | .none => false
  | .bool b => b
  | .int n => n != 0
  | .str s => !s.isEmpty
  | .bytes s => !s.isEmpty
  | .dict d => !d.isEmpty
  | .list l => !l.isEmpty

def PyVal.isDict : PyVal → Bool
  | .dict _ => true
  | _ => false

def PyVal.isStr : PyVal → Bool
  | .str _ => true
  | _ => false

/-- `isinstance(token, (str, bytes))`. -/
def isTokenType : PyVal → Bool
  | .str _ => true
  | .bytes _ => true
  | _ => false

inductive PyError where
  | authError (msg : String)
  | typeError (msg : String)
  | valueError (msg : String)
deriving DecidableEq, Repr

/-- `Identity._check_token`: non-str/bytes token is a `TypeError`, an
empty one a `ValueError`. -/
def check_token (token : PyVal) : Except PyError Unit :=
  match token with
  | .str s =>
    if s.isEmpty then .error (.valueError "token cannot be empty") else .ok ()
  | .bytes s =>
    if s.isEmpty then .error (.valueError "token cannot be empty") else .ok ()
  | _ => .error (.typeError "token is expected to be of str or bytes type")

/-- The `auth.uid`/`auth.name`/`auth.token` checks of
`Identity.validate_incoming_handshake`, run once the auth entry is
known to be a dict. -/
def validate_auth_fields (serverTokens : List PyVal)
    (auth : List (String × PyVal)) : Except PyError Unit :=
  if !pyTruthy ((dget auth "uid").getD .none) then
    .error (.authError "peer uid is invalid")
  else
    match (dget auth "name").getD .none with
    | .str _ =>
      match check_token ((dget auth "token").getD .none) with
      | .error e => .error e
      | .ok _ =>
        if pyMem ((dget auth "token").getD .none) serverTokens then .ok ()
        else .error (.authError "peer token is not authorized")
    | _ => .error (.typeError "peer name is invalid")

/-- `Identity.validate_incoming_handshake`, with the configured
`_server_tokens` passed as `serverTokens`. -/
def validate_incoming_handshake (serverTokens : List PyVal)
    (handshake : PyVal) : Except PyError Unit :=
  match handshake with
  | .dict h =>
    match dget h "auth" with
    | some (.dict auth) => validate_auth_fields serverTokens auth
    | _ => .error (.typeError "auth data data expected to be a dict")
  | _ => .error (.typeError "handshake data expected to be a dict")

/-- The auth-field part of the amended C5, as a flat decision chain:
which of the listed conditions fails first and the error kind signalled
for it. -/
def validate_auth_fields_spec (serverTokens : List PyVal)
    (auth : List (String × PyVal)) : Except PyError Unit :=
  if pyTruthy ((dget auth "uid").getD .none) = false then
    .error (.authError "peer uid is invalid")
  else if ((dget auth "name").getD .none).isStr = false then
    .error (.typeError "peer name is invalid")
  else if isTokenType ((dget auth "token").getD .none) = false then
    .error (.typeError "token is expected to be of str or bytes type")
  else if pyTruthy ((dget auth "token").getD .none) = false then
    .error (.valueError "token cannot be empty")
  else if pyMem ((dget auth "token").getD .none) serverTokens then .ok ()
  else .error (.authError "peer token is not authorized")

/-- The amended C5, written as a decision chain from the claim's words. -/
def validate_incoming_spec (serverTokens : List PyVal) (handshake : PyVal) :
    Except PyError Unit :=
  match handshake with
  | .dict d =>
    match (dget d "auth").getD .none with
    | .dict auth => validate_auth_fields_spec serverTokens auth
    | _ => .error (.typeError "auth data data expected to be a dict")
  | _ => .error (.typeError "handshake data expected to be a dict")

theorem check_token_eq_spec (v : PyVal) :
    check_token v =
      (if isTokenType v = false then
        .error (.typeError "token is expected to be of str or bytes type")
      else if pyTruthy v = false then
        .error (.valueError "token cannot be empty")
      else .ok ()) := by
  cases v with
  | str s =>
    by_cases hs : s.isEmpty <;> simp [check_token, isTokenType, pyTruthy, hs]
  | bytes s =>
    by_cases hs : s.isEmpty <;> simp [check_token, isTokenType, pyTruthy, hs]
  | none => rfl
  | bool b => rfl
  | int n => rfl
  | dict d => rfl
  | list l => rfl

/-- C5 counterexample: an envelope that is not a mapping fails with
`TypeError`, not `AuthError` as the claim states. -/
theorem validate_incoming_auth_error_cex :
    validate_incoming_handshake [.str "tok"] (.str "x")
      = .error (.typeError "handshake data expected to be a dict") ∧
    ∀ m, validate_incoming_handshake [.str "tok"] (.str "x")
      ≠ .error (.authError m) := by
  refine ⟨rfl, ?_⟩
  intro m h
  injection h with h2
  exact PyError.noConfusion h2

/-- C5 (amended): `validate_incoming_handshake` fails on exactly the
conditions the claim lists, checked in the code's order, but the error
kind is `AuthError` only for an empty/missing `auth.uid` and for a
well-formed token that is not in the allowlist; a non-mapping envelope,
a missing or non-mapping `auth`, a non-string `auth.name` and a
missing or non-str/bytes token raise `TypeError`, and an empty token
raises `ValueError`; an envelope violating none of the conditions
validates successfully. -/
theorem validate_auth_fields_eq_spec (serverTokens : List PyVal)
    (auth : List (String × PyVal)) :
    validate_auth_fields serverTokens auth
      = validate_auth_fields_spec serverTokens auth := by
  by_cases huid : pyTruthy ((dget auth "uid").getD .none)
  · cases hname : (dget auth "name").getD .none with
    | str s =>
      by_cases htt : isTokenType ((dget auth "token").getD .none)
      · by_cases hte : pyTruthy ((dget auth "token").getD .none)
        · simp [validate_auth_fields, validate_auth_fields_spec, huid, hname,
            htt, hte, check_token_eq_spec, PyVal.isStr]
        · simp [validate_auth_fields, validate_auth_fields_spec, huid, hname,
            htt, hte, check_token_eq_spec, PyVal.isStr]
      · simp [validate_auth_fields, validate_auth_fields_spec, huid, hname,
          htt, check_token_eq_spec, PyVal.isStr]
    | none =>
      simp [validate_auth_fields, validate_auth_fields_spec, huid, hname,
        PyVal.isStr]
    | bool b =>
      simp [validate_auth_fields, validate_auth_fields_spec, huid, hname,
        PyVal.isStr]
    | int n =>
      simp [validate_auth_fields, validate_auth_fields_spec, huid, hname,
        PyVal.isStr]
    | bytes s =>
      simp [validate_auth_fields, validate_auth_fields_spec, huid, hname,
        PyVal.isStr]
    | dict d2 =>
      simp [validate_auth_fields, validate_auth_fields_spec, huid, hname,
        PyVal.isStr]
    | list l =>
      simp [validate_auth_fields, validate_auth_fields_spec, huid, hname,
        PyVal.isStr]
  · simp [validate_auth_fields, validate_auth_fields_spec, huid]

theorem validate_incoming_error_kinds (serverTokens : List PyVal)
    (handshake : PyVal) :
    validate_incoming_handshake serverTokens handshake
      = validate_incoming_spec serverTokens handshake := by
  cases handshake with
  | dict d =>
    have hL : validate_incoming_handshake serverTokens (.dict d)
        = (match dget d "auth" with
           | some (.dict auth) => validate_auth_fields serverTokens auth
           | _ => .error (.typeError "auth data data expected to be a dict")) :=
      rfl
    have hR : validate_incoming_spec serverTokens (.dict d)
        = (match (dget d "auth").getD .none with
           | .dict auth => validate_auth_fields_spec serverTokens auth
           | _ => .error (.typeError "auth data data expected to be a dict")) :=
      rfl
    rw [hL, hR]
    cases hauth : dget d "auth" with
    | none => rfl
    | some v =>
      cases v with
      | dict auth => exact validate_auth_fields_eq_spec serverTokens auth
      | none => rfl
      | bool b => rfl
      | int n => rfl
      | str s => rfl
      | bytes s => rfl
      | list l => rfl
  | none => rfl
  | bool b => rfl
  | int n => rfl
  | str s => rfl
  | bytes s => rfl
  | list l => rfl

/-! ## Upload acceptance (`src/prouter/handlers/files.py`)

`_accept_file` streams request chunks to the agent.  A chunk sequence
is modelled by the sizes returned by successive `readany` calls; the
Python `while chunk` loop stops at the first empty chunk.  The agent's
`accepted_size` (the awaited RPC result) is a parameter. -/

inductive UploadError where
  | invalidRequestData (msg : String)
  | valueError (msg : String)
deriving DecidableEq, Repr

/-- The `while chunk:` loop of `_accept_file` followed by the
accepted-size comparison. -/
def accept_file_loop (contentLength acceptedSize : Nat) :
    Nat → List Nat → Except UploadError Unit
  | received, c :: rest =>
    if c ≠ 0 then
      if received + c > contentLength then
        .error (.invalidRequestData
          "request payload size does not match passed Content-Length")
      else accept_file_loop contentLength acceptedSize (received + c) rest
    else if acceptedSize ≠ received then .error (.valueError "upload failed")
    else .ok ()
  | received, [] =>
    if acceptedSize ≠ received then .error (.valueError "upload failed")
    else .ok ()

/-- `_accept_file(request, rpc_call)` for a request with declared
`Content-Length` `contentLength` whose body arrives as `chunks`. -/
def accept_file (contentLength : Nat) (chunks : List Nat)
    (acceptedSize : Nat) : Except UploadError Unit :=
  accept_file_loop contentLength acceptedSize 0 chunks

/-- The amended C6 as a flat rule: received total above the declared
length is a client error, an accepted-size disagreement a generic
(server) error, otherwise success — whether or not the received total
reaches the declared length. -/
def accept_file_spec (contentLength : Nat) (chunks : List Nat)
    (acceptedSize : Nat) : Except UploadError Unit :=
  if chunks.sum > contentLength then
    .error (.invalidRequestData
      "request payload size does not match passed Content-Length")
  else if acceptedSize ≠ chunks.sum then .error (.valueError "upload failed")
  else .ok ()

theorem accept_file_loop_eq_spec (contentLength acceptedSize : Nat)
    (chunks : List Nat) (received : Nat) (hle : received ≤ contentLength)
    (h0 : 0 ∉ chunks) :
    accept_file_loop contentLength acceptedSize received chunks =
      (if received + chunks.sum > contentLength then
        .error (.invalidRequestData
          "request payload size does not match passed Content-Length")
      else if acceptedSize ≠ received + chunks.sum then
        .error (.valueError "upload failed")
      else .ok ()) := by
  induction chunks generalizing received with
  | nil =>
    rw [if_neg (show ¬ (received + List.sum [] > contentLength) by
      simp only [List.sum_nil, Nat.add_zero]; omega)]
    simp only [accept_file_loop, List.sum_nil, Nat.add_zero]
  | cons c rest ih =>
    have hc : c ≠ 0 := fun h => h0 (h ▸ List.mem_cons_self c rest)
    have h0r : 0 ∉ rest := fun h => h0 (List.mem_cons_of_mem c h)
    have hstep : accept_file_loop contentLength acceptedSize received (c :: rest)
        = (if received + c > contentLength then
            .error (.invalidRequestData
              "request payload size does not match passed Content-Length")
          else accept_file_loop contentLength acceptedSize (received + c) rest) := by
      simp only [accept_file_loop]
      rw [if_pos hc]
    rw [hstep]
    by_cases hgt : received + c > contentLength
    · rw [if_pos hgt,
        if_pos (show received + (c :: rest).sum > contentLength by
          simp only [List.sum_cons]; omega)]
    · rw [if_neg hgt, ih (received + c) (by omega) h0r]
      simp only [List.sum_cons, Nat.add_assoc]

/-- C6 counterexample: with declared Content-Length 5, a single 2-byte
chunk and an agent accepted size of 2, `_accept_file` succeeds, even
though the received total (2) differs from the declared length (5); the
claim would require `InvalidRequestData` here. -/
theorem accept_file_mismatch_cex :
    accept_file 5 [2] 2 = .ok () ∧ (2 : Nat) ≠ 5 :=
  ⟨rfl, by decide⟩

/-- C6 (amended): `_accept_file` fails with `InvalidRequestData` (a
client error) exactly when the received total exceeds the declared
Content-Length; otherwise it fails with the generic `upload failed`
error (a server error) exactly when the agent's accepted size differs
from the received total, and succeeds otherwise — even when the
received total is below the declared length. -/
theorem accept_file_integrity (contentLength : Nat) (chunks : List Nat)
    (acceptedSize : Nat) (h0 : 0 ∉ chunks) :
    accept_file contentLength chunks acceptedSize
      = accept_file_spec contentLength chunks acceptedSize := by
  unfold accept_file accept_file_spec
  rw [accept_file_loop_eq_spec contentLength acceptedSize chunks 0
    (Nat.zero_le _) h0]
  simp

theorem accept_file_integrity_witness :
    (0 : Nat) ∉ [(2 : Nat)] ∧
    accept_file 5 [2] 7 = accept_file_spec 5 [2] 7 :=
  ⟨by decide, accept_file_integrity 5 [2] 7 (by decide)⟩

/-! ## Error middleware (`src/prouter/handlers/middleware.py`)

`error_middleware` wraps a control-route handler: some exception types
become HTTP responses, everything else is re-raised. -/

def BAD_REQUEST : Nat := 400

def NOT_FOUND : Nat := 404

def RPC_ERROR_JOB_NOT_FOUND : String := "JobNotFoundError"

structure HttpResponse where
  status : Nat
  body : String
deriving DecidableEq, Repr

/-- What the wrapped handler did: returned a response, or raised one of
the exception types the middleware distinguishes. -/
inductive HandlerOutcome where
  | success (resp : HttpResponse)
  | invalidRequestData (msg : String)
  | validationError (msg : String)
  | connectionNotFound (msg : String)
  | rpcMethodError (causeType : String) (causeMessage : String)
  | otherError (msg : String)
deriving DecidableEq, Repr

/-- Result of `error_handler`: an HTTP response, or the exception
re-raised (propagating to aiohttp's default 500 handling). -/
inductive MiddlewareResult where
  | handled (resp : HttpResponse)
  | reraised (outcome : HandlerOutcome)
deriving DecidableEq, Repr

/-- `error_middleware`'s `error_handler`. -/
def error_middleware : HandlerOutcome → MiddlewareResult
  | .success resp => .handled resp
  | .invalidRequestData msg => .handled ⟨BAD_REQUEST, msg⟩
  | .validationError msg =>
    .handled ⟨BAD_REQUEST, "Invalid request payload:\n" ++ msg⟩
  | .connectionNotFound msg => .handled ⟨NOT_FOUND, msg⟩
  | .rpcMethodError causeType causeMessage =>
    if causeType = RPC_ERROR_JOB_NOT_FOUND then
      .handled ⟨NOT_FOUND, causeMessage⟩
    else .reraised (.rpcMethodError causeType causeMessage)
  | .otherError msg => .reraised (.otherError msg)

/-- C7: Error-middleware status mapping.  `InvalidRequestData` becomes
HTTP 400 with the error text, a JSON-schema validation error HTTP 400
with the body prefixed `Invalid request payload:\n`, `ConnectionNotFound`
HTTP 404 with the error text, and an `RpcMethodError` whose cause type
is `JobNotFoundError` HTTP 404 with the cause message; any other
`RpcMethodError` and any other exception are re-raised, and a
successful handler response passes through unchanged. -/
theorem error_middleware_status_mapping :
    (∀ resp, error_middleware (.success resp) = .handled resp) ∧
    (∀ msg, error_middleware (.invalidRequestData msg)
        = .handled ⟨400, msg⟩) ∧
    (∀ msg, error_middleware (.validationError msg)
        = .handled ⟨400, "Invalid request payload:\n" ++ msg⟩) ∧
    (∀ msg, error_middleware (.connectionNotFound msg)
        = .handled ⟨404, msg⟩) ∧
    (∀ causeType causeMessage, error_middleware
        (.rpcMethodError causeType causeMessage)
        = if causeType = "JobNotFoundError" then
            .handled ⟨404, causeMessage⟩
          else .reraised (.rpcMethodError causeType causeMessage)) ∧
    (∀ msg, error_middleware (.otherError msg) = .reraised (.otherError msg)) :=
  ⟨fun _ => rfl, fun _ => rfl, fun _ => rfl, fun _ => rfl,
    fun _ _ => rfl, fun _ => rfl⟩

/-! ## HTTP proxy response pump (`src/prouter/handlers/proxy.py`)

`_proxy_http_forward_response` consumes the messages of the
`http_request` stream: message 1 is the status code, message 2 the
header list, the rest body chunks.  Fewer than two messages synthesize
an error page from the RPC error.  Header names are raw strings;
`Cache-Control`/`Expires` are popped from the case-sensitive
`multidict.MultiDict` built from message 2, while
`_proxy_http_setup_encoding` operates on the case-insensitive response
header dict. -/

/-- Python `str.lower()` (ASCII header names/values). -/
def strLower (s : String) : String := ⟨s.data.map Char.toLower⟩

inductive ProxyMsg where
  | int (n : Int)
  | headerList (hs : List (String × String))
  | chunk (b : List Nat)
deriving DecidableEq, Repr

/-- `headers.popall(name, None)` on the plain case-sensitive
`multidict.MultiDict`. -/
def popallExact (hs : List (String × String)) (name : String) :
    List (String × String) :=
  hs.filter (fun p => p.1 ≠ name)

/-- Removal from the response's case-insensitive header dict. -/
def ciRemove (hs : List (String × String)) (name : String) :
    List (String × String) :=
  hs.filter (fun p => strLower p.1 ≠ strLower name)

/-- `headers.get(name)` on the case-insensitive header dict. -/
def ciGet (hs : List (String × String)) (name : String) : Option String :=
  (hs.find? (fun p => strLower p.1 = strLower name)).map (·.2)

/-- Dropping `Cache-Control` and `Expires` from message 2 before the
headers reach the response. -/
def strip_cache_headers (hs : List (String × String)) :
    List (String × String) :=
  popallExact (popallExact hs "Cache-Control") "Expires"

/-- The chunked-transfer condition of `_proxy_http_setup_encoding`,
evaluated after `Content-Encoding` removal. -/
def proxy_chunked (hs : List (String × String)) : Bool :=
  (strLower ((ciGet (ciRemove hs "Content-Encoding")
        "Transfer-Encoding").getD "") == "chunked") ||
  (ciGet (ciRemove hs "Content-Encoding") "Content-Length").isNone

/-- `_proxy_http_setup_encoding`: drop `Content-Encoding`, and when the
chunked condition holds also drop `Content-Length` and
`Transfer-Encoding` and enable chunked encoding. -/
def proxy_setup_encoding (hs : List (String × String)) :
    List (String × String) × Bool :=
  if proxy_chunked hs then
    (ciRemove (ciRemove (ciRemove hs "Content-Encoding") "Content-Length")
        "Transfer-Encoding", true)
  else (ciRemove hs "Content-Encoding", false)

structure ProxyResponse where
  status : Int
  headers : List (String × String)
  chunked : Bool
  body : List (List Nat)
deriving DecidableEq, Repr

inductive PumpResult where
  | rpcErrorResponse
  | response (r : ProxyResponse)
  | crash
deriving DecidableEq, Repr

/-- Messages at index ≥ 2 are written as body chunks; a non-bytes
message there would raise inside `response.write`. -/
def pump_body : List ProxyMsg → Option (List (List Nat))
  | [] => some []
  | .chunk b :: rest => (pump_body rest).map (b :: ·)
  | _ => Option.none

/-- `_proxy_http_forward_response` over the received message list. -/
def proxy_http_forward_response : List ProxyMsg → PumpResult
  | [] => .rpcErrorResponse
  | [.int _] => .rpcErrorResponse
  | .int s :: .headerList hs :: rest =>
    match pump_body rest with
    | some body =>
      .response ⟨s, (proxy_setup_encoding (strip_cache_headers hs)).1,
        (proxy_setup_encoding (strip_cache_headers hs)).2, body⟩
    | none => .crash
  | _ => .crash

theorem pump_body_map (chunks : List (List Nat)) :
    pump_body (chunks.map .chunk) = some chunks := by
  induction chunks with
  | nil => rfl
  | cons b rest ih => simp [pump_body, ih]

theorem mem_popallExact {p : String × String} {hs : List (String × String)}
    {n : String} : p ∈ popallExact hs n ↔ p ∈ hs ∧ p.1 ≠ n := by
  simp [popallExact, List.mem_filter]

theorem mem_ciRemove {p : String × String} {hs : List (String × String)}
    {n : String} :
    p ∈ ciRemove hs n ↔ p ∈ hs ∧ strLower p.1 ≠ strLower n := by
  simp [ciRemove, List.mem_filter]

theorem ciGet_ciRemove_ne {hs : List (String × String)} {n m : String}
    (h : strLower m ≠ strLower n) :
    ciGet (ciRemove hs n) m = ciGet hs m := by
  induction hs with
  | nil => rfl
  | cons p rest ih =>
    by_cases hp : strLower p.1 = strLower n
    · have hrm : ciRemove (p :: rest) n = ciRemove rest n := by
        simp [ciRemove, hp]
      have hpm : ¬ strLower p.1 = strLower m := by
        rw [hp]; exact fun he => h he.symm
      rw [hrm, ih]
      simp [ciGet, List.find?, hpm]
    · have hrm : ciRemove (p :: rest) n = p :: ciRemove rest n := by
        simp [ciRemove, hp]
      rw [hrm]
      by_cases hpm : strLower p.1 = strLower m
      · simp [ciGet, List.find?, hpm]
      · simp only [ciGet, List.find?, hpm, decide_False]
        exact ih

theorem setup_encoding_snd (hs : List (String × String)) :
    (proxy_setup_encoding hs).2 = proxy_chunked hs := by
  unfold proxy_setup_encoding
  by_cases h : proxy_chunked hs <;> simp [h]

/-- C8: HTTP proxy response pump.  With fewer than two stream messages
the response is synthesized from the RPC error; otherwise message 1 is
the status, message 2 the header list — from which `Cache-Control`,
`Expires` and `Content-Encoding` never survive into the response
headers — the response is chunked exactly when `Content-Length` is
absent or `Transfer-Encoding: chunked` was requested, and the remaining
messages are written as body chunks in order. -/
theorem proxy_http_response_pump :
    proxy_http_forward_response [] = .rpcErrorResponse ∧
    (∀ s, proxy_http_forward_response [.int s] = .rpcErrorResponse) ∧
    (∀ s hs chunks,
      ∃ H C, proxy_http_forward_response
          (.int s :: .headerList hs :: chunks.map .chunk)
          = .response ⟨s, H, C, chunks⟩ ∧
        (∀ p ∈ H, p.1 ≠ "Cache-Control" ∧ p.1 ≠ "Expires" ∧
          strLower p.1 ≠ "content-encoding") ∧
        ((C = true) ↔
          (strLower ((ciGet (strip_cache_headers hs)
              "Transfer-Encoding").getD "") = "chunked" ∨
            ciGet (strip_cache_headers hs) "Content-Length" = none))) := by
  refine ⟨rfl, fun s => rfl, fun s hs chunks => ?_⟩
  refine ⟨(proxy_setup_encoding (strip_cache_headers hs)).1,
    (proxy_setup_encoding (strip_cache_headers hs)).2, ?_, ?_, ?_⟩
  · have hred : proxy_http_forward_response
        (.int s :: .headerList hs :: chunks.map .chunk)
        = (match pump_body (chunks.map .chunk) with
           | some body =>
             .response ⟨s, (proxy_setup_encoding (strip_cache_headers hs)).1,
               (proxy_setup_encoding (strip_cache_headers hs)).2, body⟩
           | none => .crash) := rfl
    rw [hred, pump_body_map]
  · intro p hp
    have hstrip : ∀ q ∈ strip_cache_headers hs,
        q.1 ≠ "Cache-Control" ∧ q.1 ≠ "Expires" := by
      intro q hq
      obtain ⟨hq1, hq2⟩ := mem_popallExact.mp hq
      obtain ⟨_, hq3⟩ := mem_popallExact.mp hq1
      exact ⟨hq3, hq2⟩
    have hce : strLower "Content-Encoding" = "content-encoding" := rfl
    unfold proxy_setup_encoding at hp
    by_cases hch : proxy_chunked (strip_cache_headers hs)
    · rw [if_pos hch] at hp
      obtain ⟨hp1, _⟩ := mem_ciRemove.mp hp
      obtain ⟨hp2, _⟩ := mem_ciRemove.mp hp1
      obtain ⟨hp3, hpce⟩ := mem_ciRemove.mp hp2
      obtain ⟨ha, hb⟩ := hstrip p hp3
      exact ⟨ha, hb, hce ▸ hpce⟩
    · rw [if_neg hch] at hp
      obtain ⟨hp3, hpce⟩ := mem_ciRemove.mp hp
      obtain ⟨ha, hb⟩ := hstrip p hp3
      exact ⟨ha, hb, hce ▸ hpce⟩
  · rw [setup_encoding_snd]
    have hTE : ciGet (ciRemove (strip_cache_headers hs) "Content-Encoding")
        "Transfer-Encoding" = ciGet (strip_cache_headers hs) "Transfer-Encoding" :=
      ciGet_ciRemove_ne (by decide)
    have hCL : ciGet (ciRemove (strip_cache_headers hs) "Content-Encoding")
        "Content-Length" = ciGet (strip_cache_headers hs) "Content-Length" :=
      ciGet_ciRemove_ne (by decide)
    simp [proxy_chunked, hTE, hCL, Bool.or_eq_true, beq_iff_eq,
      Option.isNone_iff_eq_none]

/-! ## Job start route (`src/prouter/handlers/jobs.py`)

`SCHEMA_JOB_START` validation is embedded under the semantics of the
Python `jsonschema` library: the schema's `'minLength': 1` under `args`
is a string-only keyword (ignored for arrays — the spec intends
`minItems`), and `'minValue': 0` under `port_expected_count` is not a
JSON-Schema keyword at all (the spec intends `minimum`), so neither
constraint is enforced at run time. -/

inductive Json where
  | null
  | bool (b : Bool)
  | int (n : Int)
  | str (s : String)
  | arr (items : List Json)
  | obj (fields : List (String × Json))

def Json.isStr : Json → Bool
  | .str _ => true
  | _ => false

/-- `jsonschema.validate(data, SCHEMA_JOB_START)` as a decision
procedure: type object; `args` and `env` required; no additional
properties; `args` an array of strings (the schema's `minLength` does
not apply to arrays); `env` an object with string values
(`patternProperties` `.*`); `cwd` a string or null (`oneOf`);
`port_expected_count` an integer (the schema's `minValue` is an unknown
keyword and is ignored); `forward_stdout` a boolean. -/
def validate_job_start : Json → Bool
  | .obj fields =>
    (dget fields "args").isSome &&
    (dget fields "env").isSome &&
    fields.all (fun p =>
      p.1 == "args" || p.1 == "env" || p.1 == "cwd" ||
      p.1 == "port_expected_count" || p.1 == "forward_stdout") &&
    (match dget fields "args" with
     | some (.arr items) => items.all Json.isStr
     | some _ => false
     | none => true) &&
    (match dget fields "env" with
     | some (.obj envFields) => envFields.all (fun p => p.2.isStr)
     | some _ => false
     | none => true) &&
    (match dget fields "cwd" with
     | some (.str _) => true
     | some .null => true
     | some _ => false
     | none => true) &&
    (match dget fields "port_expected_count" with
     | some (.int _) => true
     | some _ => false
     | none => true) &&
    (match dget fields "forward_stdout" with
     | some (.bool _) => true
     | some _ => false
     | none => true)
  | _ => false

/-- C9: the `jsonschema` library ignores `minLength` on arrays and the
unknown keyword `minValue`, so `POST /jobs/{c}/{j}/start` validation
accepts an empty `args` array and a negative `port_expected_count`,
contrary to the schema's documented intent; a non-string `args` member
is still rejected. -/
theorem job_start_schema_accepts_bad_inputs :
    validate_job_start (.obj [("args", .arr []), ("env", .obj [])]) = true ∧
    validate_job_start (.obj [("args", .arr [.str "x"]), ("env", .obj []),
        ("port_expected_count", .int (-5))]) = true ∧
    validate_job_start (.obj [("args", .arr [.int 3]), ("env", .obj [])])
      = false :=
  ⟨rfl, rfl, rfl⟩

/-- The argument tuple `job_start` passes to the agent's
`AgentService.job_start` (jobs.py lines 318–326): `args` and `env` are
mandatory lookups, the rest are `dict.get` with defaults `None`, `1`
and `False`. -/
def job_start_call (body : List (String × Json)) :
    Option (Json × Json × Json × Json × Json) :=
  match dget body "args", dget body "env" with
  | some args, some env =>
    some (args, env, (dget body "cwd").getD .null,
      (dget body "port_expected_count").getD (.int 1),
      (dget body "forward_stdout").getD (.bool false))
  | _, _ => Option.none

/-- C10: Implicit defaults of `start`.  For a body containing `args`
and `env`, the agent call receives `cwd = None` when `cwd` is absent,
`port_expected_count = 1` when absent, and `forward_stdout = False`
when absent; fields present in the body are passed through unchanged. -/
theorem job_start_defaults (body : List (String × Json)) (args env : Json)
    (hargs : dget body "args" = some args)
    (henv : dget body "env" = some env) :
    ∃ cwd pec fwd, job_start_call body = some (args, env, cwd, pec, fwd) ∧
      (dget body "cwd" = Option.none → cwd = .null) ∧
      (∀ v, dget body "cwd" = some v → cwd = v) ∧
      (dget body "port_expected_count" = Option.none → pec = .int 1) ∧
      (∀ v, dget body "port_expected_count" = some v → pec = v) ∧
      (dget body "forward_stdout" = Option.none → fwd = .bool false) ∧
      (∀ v, dget body "forward_stdout" = some v → fwd = v) := by
  refine ⟨(dget body "cwd").getD .null,
    (dget body "port_expected_count").getD (.int 1),
    (dget body "forward_stdout").getD (.bool false), ?_, ?_, ?_, ?_, ?_, ?_, ?_⟩
  · unfold job_start_call
    rw [hargs, henv]
  · intro h; rw [h]; rfl
  · intro v h; rw [h]; rfl
  · intro h; rw [h]; rfl
  · intro v h; rw [h]; rfl
  · intro h; rw [h]; rfl
  · intro v h; rw [h]; rfl

theorem job_start_defaults_witness :
    ∃ cwd pec fwd,
      job_start_call [("args", Json.arr [Json.str "x"]), ("env", Json.obj [])]
        = some (Json.arr [Json.str "x"], Json.obj [], cwd, pec, fwd) ∧
      (dget [("args", Json.arr [Json.str "x"]), ("env", Json.obj [])] "cwd"
          = Option.none → cwd = .null) ∧
      (∀ v, dget [("args", Json.arr [Json.str "x"]), ("env", Json.obj [])] "cwd"
          = some v → cwd = v) ∧
      (dget [("args", Json.arr [Json.str "x"]), ("env", Json.obj [])]
          "port_expected_count" = Option.none → pec = .int 1) ∧
      (∀ v, dget [("args", Json.arr [Json.str "x"]), ("env", Json.obj [])]
          "port_expected_count" = some v → pec = v) ∧
      (dget [("args", Json.arr [Json.str "x"]), ("env", Json.obj [])]
          "forward_stdout" = Option.none → fwd = .bool false) ∧
      (∀ v, dget [("args", Json.arr [Json.str "x"]), ("env", Json.obj [])]
          "forward_stdout" = some v → fwd = v) :=
  job_start_defaults [("args", Json.arr [Json.str "x"]), ("env", Json.obj [])]
    (Json.arr [Json.str "x"]) (Json.obj []) rfl rfl

end PRouter
